import Mathlib

set_option maxRecDepth 100000

/-!
Verification of the scan-pipeline specification against the TruffleHog sources.

The development shallowly embeds the parts of the repository that the claims
touch:

* the credential detectors `abuseipdb`, `walkscore`, `okta`, `verifier` and
  `paypaloauth` (regex matching, verification branch, false-positive filter,
  result cleaning), with the HTTP round trip modelled as an oracle mapping the
  matched credential to the outcome of the request;
* the syslog source (`verifyConnectionConfig`, the UDP packet loop, the TCP
  per-read buffer, `parseSyslogMetadata` with the two external RFC parsers
  modelled as oracles);
* the UTF-8 sanitizer (`sanitizer.UTF8`), built on a byte-level embedding of
  Go's `strings.ToValidUTF8` / `strings.Replace`.

Strings scanned by detectors are modelled as `List Char`; the sanitizer works
on raw bytes modelled as `List Nat` (every value below 256 in practice; no
arithmetic overflows occur).
-/

/-- Does the second list start with the first one?  Mirrors the prefix test
used by Go's `strings.Contains`. -/
def startsWithList : List Char → List Char → Bool
  | [], _ => true
  | _ :: _, [] => false
  | c :: ns, d :: hs => c = d && startsWithList ns hs

/-- Embedding of Go's `strings.Contains hay needle`. -/
def containsStr (hay needle : List Char) : Bool :=
  if startsWithList needle hay then true
  else
    match hay with
    | [] => false
    | _ :: t => containsStr t needle

/-- Embedding of Go's `strings.TrimSpace`: drop whitespace from both ends. -/
def trimSpace (l : List Char) : List Char :=
  ((l.dropWhile Char.isWhitespace).reverse.dropWhile Char.isWhitespace).reverse

/-- Substring of `s` from position `a` (inclusive) to `b` (exclusive). -/
def subSpan (s : List Char) (a b : Nat) : List Char :=
  (s.drop a).take (b - a)

/-!  A small backtracking regular-expression engine, sufficient for the
patterns used by the modelled detectors: literals (optionally
case-insensitive), greedy character-class repetition (bounded or
unbounded), word boundaries, alternation, sequence and a single capture
group.  Scanning is
leftmost-first with non-overlapping continuation, matching the semantics of
Go's `regexp` package on these patterns. -/

/-- Regular expressions as used by the modelled detector patterns. -/
inductive RE where
  | lit (w : List Char) (ci : Bool)
  | cls (p : Char → Bool) (lo hi : Nat)
  | clsU (p : Char → Bool) (lo : Nat)
  | wordB
  | seq (a b : RE)
  | alt (a b : RE)
  | grp (a : RE)

/-- State at the end of a match attempt: end position and the span of the
capture group, when one matched. -/
structure MState where
  pos : Nat
  grp : Option (Nat × Nat)

/-- Is `c` a word character in the sense of the regex metacharacter b? -/
def isWordChar (c : Char) : Bool := c.isAlphanum || c = '_'

/-- Match a literal at position `i`; `ci` selects case-insensitive
comparison.  Returns the position after the literal. -/
def litMatch (s : List Char) (i : Nat) (w : List Char) (ci : Bool) : Option Nat :=
  match w with
  | [] => some i
  | c :: w' =>
    match s.get? i with
    | some d =>
      if (if ci then d.toLower = c.toLower else d = c) then litMatch s (i + 1) w' ci
      else none
    | none => none

/-- Length of the run of characters satisfying `p` starting at `i`,
capped at `cap`. -/
def clsRun (s : List Char) (p : Char → Bool) (i cap : Nat) : Nat :=
  match cap with
  | 0 => 0
  | cap' + 1 =>
    match s.get? i with
    | some c => if p c then 1 + clsRun s p (i + 1) cap' else 0
    | none => 0

/-- Word-boundary test at position `i` of `s`. -/
def wordBAt (s : List Char) (i : Nat) : Bool :=
  let before :=
    match i with
    | 0 => false
    | j + 1 =>
      match s.get? j with
      | some c => isWordChar c
      | none => false
  let here :=
    match s.get? i with
    | some c => isWordChar c
    | none => false
  before != here

/-- Greedy repetition driver: try the continuation at offsets
`base + n`, `base + n - 1`, …, `base`, preferring the longest. -/
def greedyTry (k : Nat → Option MState) (base : Nat) : Nat → Option MState
  | 0 => k base
  | n + 1 =>
    match k (base + (n + 1)) with
    | some st => some st
    | none => greedyTry k base n

/-- Core backtracking matcher in continuation-passing style.  `g` is the
current capture-group span, `k` the continuation. -/
def matchCore (s : List Char) : RE → Nat → Option (Nat × Nat) →
    (Nat → Option (Nat × Nat) → Option MState) → Option MState
  | .lit w ci, i, g, k =>
    match litMatch s i w ci with
    | some j => k j g
    | none => none
  | .cls p lo hi, i, g, k =>
    let r := clsRun s p i hi
    if r < lo then none else greedyTry (fun j => k j g) (i + lo) (r - lo)
  | .clsU p lo, i, g, k =>
    let r := clsRun s p i s.length
    if r < lo then none else greedyTry (fun j => k j g) (i + lo) (r - lo)
  | .wordB, i, g, k => if wordBAt s i then k i g else none
  | .seq a b, i, g, k => matchCore s a i g (fun j g' => matchCore s b j g' k)
  | .alt a b, i, g, k =>
    match matchCore s a i g k with
    | some st => some st
    | none => matchCore s b i g k
  | .grp a, i, g, k => matchCore s a i g (fun j _ => k j (some (i, j)))

/-- Try to match `re` anchored at position `i`. -/
def matchAt (s : List Char) (re : RE) (i : Nat) : Option MState :=
  matchCore s re i none (fun j g => some ⟨j, g⟩)

/-- Leftmost match of `re` at or after position `i` (with fuel). -/
def findFrom (s : List Char) (re : RE) (i fuel : Nat) : Option (Nat × MState) :=
  match fuel with
  | 0 => none
  | fuel' + 1 =>
    match matchAt s re i with
    | some st => some (i, st)
    | none => findFrom s re (i + 1) fuel'

/-- All non-overlapping leftmost matches of `re` from position `i` on. -/
def findAllFrom (s : List Char) (re : RE) (i fuel : Nat) : List (Nat × MState) :=
  match fuel with
  | 0 => []
  | fuel' + 1 =>
    match findFrom s re i (s.length + 1 - i) with
    | none => []
    | some (st, m) => (st, m) :: findAllFrom s re (max m.pos (st + 1)) fuel'

/-- Embedding of `FindAllStringSubmatch` followed by taking group 1: the list
of capture-group substrings of all matches (the whole match when the pattern
has no group). -/
def findAllSub1 (re : RE) (s : List Char) : List (List Char) :=
  (findAllFrom s re 0 (s.length + 1)).map fun pr =>
    match pr.2.grp with
    | some g => subSpan s g.1 g.2
    | none => subSpan s pr.1 pr.2.pos

/-- Embedding of `FindAll`: the list of whole-match substrings. -/
def findAllMatch (re : RE) (s : List Char) : List (List Char) :=
  (findAllFrom s re 0 (s.length + 1)).map fun pr => subSpan s pr.1 pr.2.pos

/-!  Character classes and the concrete detector patterns. -/

/-- Character class a-z0-9. -/
def lowerDigitCh (c : Char) : Bool :=
  ('a' ≤ c && c ≤ 'z') || ('0' ≤ c && c ≤ '9')

/-- Character class a-zA-Z0-9. -/
def alnumCh (c : Char) : Bool :=
  ('a' ≤ c && c ≤ 'z') || ('A' ≤ c && c ≤ 'Z') || ('0' ≤ c && c ≤ '9')

/-- Character class a-zA-Z0-9 plus dash. -/
def alnumDashCh (c : Char) : Bool := alnumCh c || c = '-'

/-- Character class A-Za-z0-9 plus underscore and dot. -/
def alnumDotUndCh (c : Char) : Bool := alnumCh c || c = '_' || c = '.'

/-- Character class a-z0-9 plus dash. -/
def lowerDigitDashCh (c : Char) : Bool := lowerDigitCh c || c = '-'

/-- Character class a-zA-Z0-9 plus underscore and dash. -/
def wordDashCh (c : Char) : Bool := alnumCh c || c = '_' || c = '-'

/-- Modelled from the spec: `detectors.PrefixRegex` (the shared helper file
`pkg/detectors/detectors.go` is not among the sources, only its callers are).
Per the spec, each credential pattern is bracketed by a prefix keyword
look-alike: a case-insensitive occurrence of the keyword followed by up to 40
arbitrary characters. -/
def keywordGapRE (kw : List Char) : RE :=
  .seq (.lit kw true) (.cls (fun _ => true) 0 40)

/-- The `keyPat` of `pkg/detectors/abuseipdb/abuseipdb.go`. -/
def abuseipdb_keyPat : RE :=
  .seq (keywordGapRE (("abuseipdb").data))
    (.seq .wordB (.seq (.grp (.cls lowerDigitCh 80 80)) .wordB))

/-- The `keyPat` of `pkg/detectors/walkscore/walkscore.go` (walkscore part). -/
def walkscore_keyPat : RE :=
  .seq (keywordGapRE (("walkscore").data))
    (.seq .wordB (.seq (.grp (.cls lowerDigitCh 32 32)) .wordB))

/-- The `keyPat` of the `verifier` detector. -/
def verifier_keyPat : RE :=
  .seq (keywordGapRE (("verifier").data))
    (.seq .wordB (.seq (.grp (.cls lowerDigitCh 96 96)) .wordB))

/-- The `emailPat` of the `verifier` detector. -/
def verifier_emailPat : RE :=
  .seq (keywordGapRE (("verifier").data))
    (.seq .wordB
      (.seq
        (.grp (.seq (.cls alnumDashCh 5 16)
          (.seq (.lit (("@").data) false)
            (.seq (.cls alnumDashCh 4 16)
              (.seq (.lit ((".").data) false) (.cls alnumDashCh 3 6))))))
        .wordB))

/-- The `idPat` of the `paypaloauth` detector; note that it contains no
keyword: it is a bare bracketed pattern. -/
def paypal_idPat : RE :=
  .seq .wordB
    (.seq
      (.grp (.seq (.cls alnumDotUndCh 7 7)
        (.seq (.lit (("-").data) false) (.cls alnumDotUndCh 72 72))))
      .wordB)

/-- The `keyPat` of the `paypaloauth` detector; like `idPat` it contains no
keyword. -/
def paypal_keyPat : RE :=
  .seq .wordB
    (.seq
      (.grp (.seq (.cls alnumDotUndCh 69 69)
        (.seq (.lit (("-").data) false) (.cls alnumDotUndCh 10 10))))
      .wordB)

/-- The `domainPat` of the `okta` detector (second package of
`pkg/detectors/walkscore/walkscore.go`). -/
def okta_domainPat : RE :=
  .seq (.cls lowerDigitDashCh 1 40)
    (.seq (.lit ((".okta").data) false)
      (.seq
        (.alt (.lit (("preview").data) false)
          (.alt (.lit (("-emea").data) false) (.lit [] false)))
        (.lit ((".com").data) false)))

/-- The `tokenPat` of the `okta` detector. -/
def okta_tokenPat : RE :=
  .seq (.lit (("00").data) false) (.cls wordDashCh 40 40)

/-!  Detector data model, shared helpers and the per-detector `FromData`
embeddings.  The HTTP round trip of the verification branch is modelled by an
oracle that maps the credential material placed into the request to the
outcome of the request. -/

/-- Detector type enumeration (the variants used by the modelled detectors). -/
inductive DetectorType where
  | AbuseIPDB
  | WalkScore
  | Okta
  | Verifier
  | PaypalOauth
  | CurrencyCloud
deriving DecidableEq

/-- Embedding of `detectors.Result` (the fields the claims are about). -/
structure Result where
  detectorType : DetectorType
  raw : List Char
  verified : Bool
deriving DecidableEq

/-- Outcome of one HTTP round trip for detectors that read the response body:
the request could not be built, the request failed on the network, the body
read failed, or a response with a status code and a body was obtained. -/
inductive ReqOutcome where
  | buildErr
  | netErr
  | readErr
  | ok (status : Nat) (body : List Char)
deriving DecidableEq

/-- Outcome of one HTTP round trip for detectors that only look at the status
code. -/
inductive NetOutcome where
  | buildErr
  | netErr
  | ok (status : Nat)
deriving DecidableEq

/-- Modelled from the spec: `detectors.DefaultFalsePositives`
(`pkg/detectors/detectors.go` is not among the sources).  A small set of
common dictionary words used as known false positives. -/
def DefaultFalsePositives : List (List Char) :=
  [("example").data, ("test").data, ("password").data, ("sample").data,
   ("xxxxxx").data]

/-- The distinct characters of a string, in order of first occurrence. -/
def distinctChars (l : List Char) : List Char :=
  l.foldl (fun acc c => if c ∈ acc then acc else acc ++ [c]) []

/-- Modelled from the spec: `detectors.IsKnownFalsePositive`
(`pkg/detectors/detectors.go` is not among the sources, only its callers
are).  Per the spec the shared classifier rejects common dictionary words and
low-entropy strings; we model it as: the lowercased candidate is one of the
known false-positive words, or — when the word/entropy check flag is set —
the candidate is built from at most three distinct characters. -/
def IsKnownFalsePositive (cand : List Char) (fps : List (List Char))
    (wordCheck : Bool) : Bool :=
  fps.contains (cand.map Char.toLower) ||
    (wordCheck && decide ((distinctChars cand).length ≤ 3))

/-- Insert one result into the de-duplicated accumulator: a stored result
with the same raw value is replaced only when it is unverified, so a verified
instance is never lost. -/
def cleanInsert (r : Result) : List Result → List Result
  | [] => [r]
  | x :: xs =>
    if x.raw == r.raw then (if x.verified then x :: xs else r :: xs)
    else x :: cleanInsert r xs

/-- Modelled from the spec: `detectors.CleanResults`
(`pkg/detectors/detectors.go` is not among the sources).  Per the spec,
results of one `FromData` call are de-duplicated by `raw`; for each raw value
the verified instance is kept when one exists, else one of the unverified
instances. -/
def CleanResults (l : List Result) : List Result :=
  l.foldl (fun acc r => cleanInsert r acc) []

/-- The body substring checked by the abuseipdb detector. -/
def ipAddressChars : List Char := ("ipAddress").data

/-- The body substring checked by the walkscore detector. -/
def distanceChars : List Char := ("distance").data

/-- Embedding of the loop body of `abuseipdb.Scanner.FromData`
(`pkg/detectors/abuseipdb/abuseipdb.go`, lines 42-84): for each regex match,
build an unverified result; when `verify` is set, run the HTTP request (the
oracle `net` maps the key to the outcome); a 2xx response marks the result
verified exactly when the body contains `ipAddress`; a non-2xx response
triggers the false-positive filter; build/network/read errors leave the
result unverified (a build error skips the candidate). -/
def abuseipdbProcess (verify : Bool) (net : List Char → ReqOutcome) :
    List (List Char) → List Result
  | [] => []
  | m :: ms =>
    let resMatch := trimSpace m
    let s1 : Result := ⟨.AbuseIPDB, resMatch, false⟩
    if verify then
      match net resMatch with
      | .buildErr => abuseipdbProcess verify net ms
      | .netErr => s1 :: abuseipdbProcess verify net ms
      | .readErr => s1 :: abuseipdbProcess verify net ms
      | .ok st body =>
        if 200 ≤ st ∧ st < 300 then
          (⟨.AbuseIPDB, resMatch, containsStr body ipAddressChars⟩ : Result) ::
            abuseipdbProcess verify net ms
        else if IsKnownFalsePositive resMatch DefaultFalsePositives true then
          abuseipdbProcess verify net ms
        else s1 :: abuseipdbProcess verify net ms
    else s1 :: abuseipdbProcess verify net ms

/-- Embedding of `abuseipdb.Scanner.FromData`: run `keyPat` over the data,
process each match, clean the results and return a nil error. -/
def abuseipdbFromData (verify : Bool) (net : List Char → ReqOutcome)
    (data : List Char) : List Result × Option Unit :=
  (CleanResults (abuseipdbProcess verify net (findAllSub1 abuseipdb_keyPat data)),
   none)

/-- Embedding of the loop body of `walkscore.Scanner.FromData`
(`pkg/detectors/walkscore/walkscore.go`, lines 40-77): a 2xx response whose
body contains `distance` marks the result verified; any other response runs
the false-positive filter; a network error appends the unverified result; a
body-read error skips the candidate. -/
def walkscoreProcess (verify : Bool) (net : List Char → ReqOutcome) :
    List (List Char) → List Result
  | [] => []
  | m :: ms =>
    let resMatch := trimSpace m
    let s1 : Result := ⟨.WalkScore, resMatch, false⟩
    if verify then
      match net resMatch with
      | .buildErr => walkscoreProcess verify net ms
      | .netErr => s1 :: walkscoreProcess verify net ms
      | .readErr => walkscoreProcess verify net ms
      | .ok st body =>
        if (200 ≤ st ∧ st < 300) ∧ containsStr body distanceChars = true then
          (⟨.WalkScore, resMatch, true⟩ : Result) ::
            walkscoreProcess verify net ms
        else if IsKnownFalsePositive resMatch DefaultFalsePositives true then
          walkscoreProcess verify net ms
        else s1 :: walkscoreProcess verify net ms
    else s1 :: walkscoreProcess verify net ms

/-- Embedding of `walkscore.Scanner.FromData`. -/
def walkscoreFromData (verify : Bool) (net : List Char → ReqOutcome)
    (data : List Char) : List Result × Option Unit :=
  (CleanResults (walkscoreProcess verify net (findAllSub1 walkscore_keyPat data)),
   none)

/-- Embedding of the inner (domain) loop of `okta.Scanner.FromData`
(second package of `pkg/detectors/walkscore/walkscore.go`, lines 117-159):
for each domain, build a result for the token; when `verify` is set, a
request-build or network error makes `FromData` return early with the
results accumulated so far and a non-nil error; a 2xx response marks the
result verified.  Every result that is unverified at this point goes through
the false-positive filter; rejected tokens are skipped. -/
def oktaDomainsLoop (verify : Bool) (net : List Char → List Char → NetOutcome)
    (token : List Char) (domains : List (List Char)) (acc : List Result) :
    List Result × Option Unit :=
  match domains with
  | [] => (acc, none)
  | domain :: rest =>
    if verify then
      match net domain token with
      | .buildErr => (acc, some ())
      | .netErr => (acc, some ())
      | .ok st =>
        let s : Result := ⟨.Okta, token, decide (200 ≤ st ∧ st < 300)⟩
        if s.verified = false ∧
            IsKnownFalsePositive token DefaultFalsePositives true = true then
          oktaDomainsLoop verify net token rest acc
        else oktaDomainsLoop verify net token rest (acc ++ [s])
    else
      if IsKnownFalsePositive token DefaultFalsePositives true = true then
        oktaDomainsLoop verify net token rest acc
      else oktaDomainsLoop verify net token rest (acc ++ [(⟨.Okta, token, false⟩ : Result)])

/-- Embedding of the outer (token) loop of `okta.Scanner.FromData`. -/
def oktaTokensLoop (verify : Bool) (net : List Char → List Char → NetOutcome)
    (tokens domains : List (List Char)) (acc : List Result) :
    List Result × Option Unit :=
  match tokens with
  | [] => (acc, none)
  | t :: ts =>
    match oktaDomainsLoop verify net t domains acc with
    | (acc2, none) => oktaTokensLoop verify net ts domains acc2
    | (acc2, some u) => (acc2, some u)

/-- Embedding of `okta.Scanner.FromData`: all token matches crossed with all
domain matches; no result cleaning. -/
def oktaFromData (verify : Bool) (net : List Char → List Char → NetOutcome)
    (data : List Char) : List Result × Option Unit :=
  oktaTokensLoop verify net (findAllMatch okta_tokenPat data)
    (findAllMatch okta_domainPat data) []

/-- Embedding of the inner (email) loop of `verifier.Scanner.FromData`: the
oracle maps the email and the key of the request URL to the outcome; a 2xx
response marks the result verified; a non-2xx response runs the
false-positive filter on the key; a network error appends the unverified
result; a build error skips the pair. -/
def verifierEmailLoop (verify : Bool) (net : List Char → List Char → NetOutcome)
    (resMatch : List Char) : List (List Char) → List Result
  | [] => []
  | idm :: rest =>
    let userPatMatch := trimSpace idm
    let s1 : Result := ⟨.Verifier, resMatch, false⟩
    if verify then
      match net userPatMatch resMatch with
      | .buildErr => verifierEmailLoop verify net resMatch rest
      | .netErr => s1 :: verifierEmailLoop verify net resMatch rest
      | .ok st =>
        if 200 ≤ st ∧ st < 300 then
          (⟨.Verifier, resMatch, true⟩ : Result) ::
            verifierEmailLoop verify net resMatch rest
        else if IsKnownFalsePositive resMatch DefaultFalsePositives true then
          verifierEmailLoop verify net resMatch rest
        else s1 :: verifierEmailLoop verify net resMatch rest
    else s1 :: verifierEmailLoop verify net resMatch rest

/-- Embedding of the outer (key) loop of `verifier.Scanner.FromData`. -/
def verifierKeyLoop (verify : Bool) (net : List Char → List Char → NetOutcome)
    (ids : List (List Char)) : List (List Char) → List Result
  | [] => []
  | m :: ms =>
    verifierEmailLoop verify net (trimSpace m) ids ++
      verifierKeyLoop verify net ids ms

/-- Embedding of `verifier.Scanner.FromData`. -/
def verifierFromData (verify : Bool) (net : List Char → List Char → NetOutcome)
    (data : List Char) : List Result × Option Unit :=
  (CleanResults
      (verifierKeyLoop verify net (findAllSub1 verifier_emailPat data)
        (findAllSub1 verifier_keyPat data)),
   none)

/-- Embedding of the inner (id) loop of `paypaloauth.Scanner.FromData`
(`src/unnamed/part_002`, lines 42-87): the oracle maps the id and the key of
the basic-auth header to the outcome; a 2xx response marks the result
verified; a non-2xx response runs the false-positive filter on the key; a
network error appends the unverified result; a build error skips the pair. -/
def paypalIdLoop (verify : Bool) (net : List Char → List Char → NetOutcome)
    (resMatch : List Char) : List (List Char) → List Result
  | [] => []
  | idm :: rest =>
    let residMatch := trimSpace idm
    let s1 : Result := ⟨.PaypalOauth, resMatch, false⟩
    if verify then
      match net residMatch resMatch with
      | .buildErr => paypalIdLoop verify net resMatch rest
      | .netErr => s1 :: paypalIdLoop verify net resMatch rest
      | .ok st =>
        if 200 ≤ st ∧ st < 300 then
          (⟨.PaypalOauth, resMatch, true⟩ : Result) ::
            paypalIdLoop verify net resMatch rest
        else if IsKnownFalsePositive resMatch DefaultFalsePositives true then
          paypalIdLoop verify net resMatch rest
        else s1 :: paypalIdLoop verify net resMatch rest
    else s1 :: paypalIdLoop verify net resMatch rest

/-- Embedding of the outer (key) loop of `paypaloauth.Scanner.FromData`. -/
def paypalKeyLoop (verify : Bool) (net : List Char → List Char → NetOutcome)
    (ids : List (List Char)) : List (List Char) → List Result
  | [] => []
  | m :: ms =>
    paypalIdLoop verify net (trimSpace m) ids ++
      paypalKeyLoop verify net ids ms

/-- Embedding of `paypaloauth.Scanner.FromData`. -/
def paypaloauthFromData (verify : Bool) (net : List Char → List Char → NetOutcome)
    (data : List Char) : List Result × Option Unit :=
  (CleanResults
      (paypalKeyLoop verify net (findAllSub1 paypal_idPat data)
        (findAllSub1 paypal_keyPat data)),
   none)

/-- Character class a-zA-Z0-9 plus dot, underscore and dash (the local and
domain classes of the currencycloud email pattern). -/
def emailLocCh (c : Char) : Bool := alnumCh c || c = '.' || c = '_' || c = '-'

/-- Character class a-z. -/
def lowerCh (c : Char) : Bool := 'a' ≤ c && c ≤ 'z'

/-- The `keyPat` of the `currencycloud` detector (first package of
`src/unnamed/part_003`). -/
def currencycloud_keyPat : RE :=
  .seq (keywordGapRE (("currencycloud").data))
    (.seq .wordB (.seq (.grp (.cls lowerDigitCh 64 64)) .wordB))

/-- The `emailPat` of the `currencycloud` detector; it carries no keyword. -/
def currencycloud_emailPat : RE :=
  .seq .wordB
    (.seq
      (.grp (.seq (.clsU emailLocCh 1)
        (.seq (.lit (("@").data) false)
          (.seq (.clsU emailLocCh 1)
            (.seq (.lit ((".").data) false) (.clsU lowerCh 1))))))
      .wordB)

/-- The body substring checked by the currencycloud detector. -/
def authTokenChars : List Char := ("auth_token").data

/-- Embedding of the inner (email) loop of `currencycloud.Scanner.FromData`
(`src/unnamed/part_003`, lines 47-85): the oracle maps the email and the key
of the authentication payload to the outcome; a response whose body contains
`auth_token` marks the result verified — the status code is never
inspected; any other response runs the false-positive filter on the key; a
network error appends the unverified result; a build or body-read error
skips the pair. -/
def currencycloudEmailLoop (verify : Bool)
    (net : List Char → List Char → ReqOutcome) (resMatch : List Char) :
    List (List Char) → List Result
  | [] => []
  | em :: rest =>
    let resEmailMatch := trimSpace em
    let s1 : Result := ⟨.CurrencyCloud, resMatch, false⟩
    if verify then
      match net resEmailMatch resMatch with
      | .buildErr => currencycloudEmailLoop verify net resMatch rest
      | .netErr => s1 :: currencycloudEmailLoop verify net resMatch rest
      | .readErr => currencycloudEmailLoop verify net resMatch rest
      | .ok _ body =>
        if containsStr body authTokenChars = true then
          (⟨.CurrencyCloud, resMatch, true⟩ : Result) ::
            currencycloudEmailLoop verify net resMatch rest
        else if IsKnownFalsePositive resMatch DefaultFalsePositives true then
          currencycloudEmailLoop verify net resMatch rest
        else s1 :: currencycloudEmailLoop verify net resMatch rest
    else s1 :: currencycloudEmailLoop verify net resMatch rest

/-- Embedding of the outer (key) loop of `currencycloud.Scanner.FromData`. -/
def currencycloudKeyLoop (verify : Bool)
    (net : List Char → List Char → ReqOutcome) (emails : List (List Char)) :
    List (List Char) → List Result
  | [] => []
  | m :: ms =>
    currencycloudEmailLoop verify net (trimSpace m) emails ++
      currencycloudKeyLoop verify net emails ms

/-- Embedding of `currencycloud.Scanner.FromData`. -/
def currencycloudFromData (verify : Bool)
    (net : List Char → List Char → ReqOutcome) (data : List Char) :
    List Result × Option Unit :=
  (CleanResults
      (currencycloudKeyLoop verify net (findAllSub1 currencycloud_emailPat data)
        (findAllSub1 currencycloud_keyPat data)),
   none)

/-!  Embedding of the syslog source (`pkg/sources/syslog/syslog.go`). -/

/-- The connection fields of `sourcespb.Syslog` used by
`verifyConnectionConfig`. -/
structure SyslogConn where
  protocol : String
  listenAddress : String
  format : String
  tlsCert : String
  tlsKey : String
deriving DecidableEq

/-- Embedding of `Source.verifyConnectionConfig` (syslog.go, lines 125-147).
The connection is mutated in place in Go; the embedding returns the
post-state together with the error, mirroring that an early error return
leaves the remaining fields untouched. -/
def verifyConnectionConfig (c0 : SyslogConn) : SyslogConn × Option String :=
  let tls := c0.tlsCert != "" || c0.tlsKey != ""
  let c1 :=
    if c0.protocol = "" then
      if tls then (⟨"tcp", c0.listenAddress, c0.format, c0.tlsCert, c0.tlsKey⟩ : SyslogConn)
      else (⟨"udp", c0.listenAddress, c0.format, c0.tlsCert, c0.tlsKey⟩ : SyslogConn)
    else c0
  if c1.protocol = "udp" && tls then (c1, some "TLS is not supported over UDP")
  else
    let c2 :=
      if c1.listenAddress = "" then
        (⟨c1.protocol, ":5140", c1.format, c1.tlsCert, c1.tlsKey⟩ : SyslogConn)
      else c1
    let c3 :=
      if c2.format = "" then
        (⟨c2.protocol, c2.listenAddress, "rfc3164", c2.tlsCert, c2.tlsKey⟩ : SyslogConn)
      else c2
    (c3, none)

/-- The syslog variant of `source_metadatapb.MetaData` built by the
`sourceMetadataFunc` closure installed in `Source.Init`. -/
structure SyslogMetadataRec where
  hostname : String
  appname : String
  procid : String
  timestamp : String
  facility : String
  client : String
deriving DecidableEq

/-- Outcome of one run of an external RFC syslog parser: the fields the
caller extracts on success, or a failure. -/
inductive ParseOutcome where
  | ok (hostname appname procid timestamp facility : String)
  | fail
deriving DecidableEq

/-- Embedding of `Source.parseSyslogMetadata` (syslog.go, lines 190-210).
The third-party RFC 3164 / RFC 5424 parsers are external libraries and are
modelled as oracles from the input bytes to a parse outcome.  On success the
rfc5424 branch fills hostname/appname/procid/timestamp and leaves the
facility empty, the rfc3164 branch fills hostname/timestamp/facility and
leaves appname/procid empty; on failure the nil metadata and an error are
returned; an unknown format yields nil metadata and no error. -/
def parseSyslogMetadata (format : String)
    (parse3164 parse5424 : List Nat → ParseOutcome) (input : List Nat)
    (remote : String) : Option SyslogMetadataRec × Option Unit :=
  if format = "rfc5424" then
    match parse5424 input with
    | .ok h a p t _ => (some ⟨h, a, p, t, "", remote⟩, none)
    | .fail => (none, some ())
  else if format = "rfc3164" then
    match parse3164 input with
    | .ok h _ _ t f => (some ⟨h, "", "", t, f, remote⟩, none)
    | .fail => (none, some ())
  else (none, none)

/-- The chunk fields relevant to the syslog claims. -/
structure Chunk where
  sourceName : String
  data : List Nat
  metadata : Option SyslogMetadataRec
  verify : Bool
deriving DecidableEq

/-- Semantics of a single Go read into a fresh zero-filled buffer of
`bufSize` bytes (`make([]byte, bufSize)` followed by `Read`/`ReadFrom`): the
buffer afterwards holds the first `bufSize` bytes of the incoming data,
padded with NUL bytes up to `bufSize` when the data is shorter.  The source
hands the whole buffer to the chunk, ignoring the byte count returned by the
read. -/
def readFromBuffer (bufSize : Nat) (packet : List Nat) : List Nat :=
  packet.take bufSize ++ List.replicate (bufSize - packet.length) 0

/-- Embedding of the per-packet loop of `Source.acceptUDPConnections`
(syslog.go, lines 260-286) over the list of successfully received packets,
each paired with the remote address: every packet yields exactly one chunk
whose data is the full 65535-byte read buffer; the metadata is whatever
`parseSyslogMetadata` produced (nil on parse failure). -/
def acceptUDPConnections (format : String)
    (parse3164 parse5424 : List Nat → ParseOutcome) (name : String)
    (verify : Bool) (packets : List (List Nat × String)) : List Chunk :=
  packets.map fun pr =>
    let input := readFromBuffer 65535 pr.1
    (⟨name, input,
      (parseSyslogMetadata format parse3164 parse5424 input pr.2).1,
      verify⟩ : Chunk)

/-- Embedding of one successful read iteration of `Source.monitorConnection`
(syslog.go, lines 212-244): the TCP read buffer is `make([]byte, 8096)` and
the whole buffer becomes the chunk data. -/
def tcpReadChunk (format : String)
    (parse3164 parse5424 : List Nat → ParseOutcome) (name : String)
    (verify : Bool) (seg : List Nat) (remote : String) : Chunk :=
  let input := readFromBuffer 8096 seg
  (⟨name, input,
    (parseSyslogMetadata format parse3164 parse5424 input remote).1,
    verify⟩ : Chunk)

/-!  Embedding of the UTF-8 sanitizer (`pkg/sanitizer`, `src/unnamed/part_004`):
`UTF8(in) = strings.Replace(strings.ToValidUTF8(in, "❗"), "\x00", "", -1)`.
Strings are byte sequences here; we embed Go's `strings.ToValidUTF8` together
with the decoding rules of `utf8.DecodeRuneInString` (Go's acceptance
ranges), and the NUL-removing `strings.Replace`, at the byte level. -/

/-- Is `x` a UTF-8 continuation byte? -/
def contByte (x : Nat) : Bool := decide (0x80 ≤ x ∧ x ≤ 0xBF)

/-- Lower acceptance bound of the second byte of a three-byte sequence
(Go's `utf8.acceptRanges`): `0xE0` starters need `0xA0` (no overlong forms). -/
def lo3 (b : Nat) : Nat := if b = 0xE0 then 0xA0 else 0x80

/-- Upper acceptance bound of the second byte of a three-byte sequence:
`0xED` starters stop at `0x9F` (no surrogates). -/
def hi3 (b : Nat) : Nat := if b = 0xED then 0x9F else 0xBF

/-- Lower acceptance bound of the second byte of a four-byte sequence:
`0xF0` starters need `0x90` (no overlong forms). -/
def lo4 (b : Nat) : Nat := if b = 0xF0 then 0x90 else 0x80

/-- Upper acceptance bound of the second byte of a four-byte sequence:
`0xF4` starters stop at `0x8F` (nothing above U+10FFFF). -/
def hi4 (b : Nat) : Nat := if b = 0xF4 then 0x8F else 0xBF

/-- UTF-8 encoding of the replacement character `❗` (U+2757) used by
`sanitizer.UTF8`. -/
def replacementBytes : List Nat := [0xE2, 0x9D, 0x97]

/-- Emit the replacement unless the previous byte was already part of an
invalid run (Go's `ToValidUTF8` collapses each maximal invalid run into one
replacement). -/
def emitRepl (invalid : Bool) (rest : List Nat) : List Nat :=
  (if invalid then [] else replacementBytes) ++ rest

/-- Can a two-byte sequence continue here?  (Second byte is a continuation
byte.) -/
def cont2Ok : List Nat → Bool
  | b1 :: _ => contByte b1
  | [] => false

/-- Can a three-byte sequence with starter `b` continue here? -/
def cont3Ok (b : Nat) : List Nat → Bool
  | b1 :: b2 :: _ => decide (lo3 b ≤ b1 ∧ b1 ≤ hi3 b) && contByte b2
  | _ => false

/-- Can a four-byte sequence with starter `b` continue here? -/
def cont4Ok (b : Nat) : List Nat → Bool
  | b1 :: b2 :: b3 :: _ =>
    decide (lo4 b ≤ b1 ∧ b1 ≤ hi4 b) && contByte b2 && contByte b3
  | _ => false

/-- Embedding of the scan loop of Go's `strings.ToValidUTF8`: ASCII bytes
are copied; a complete well-formed multi-byte sequence is copied whole (the
`pending` counter copies the already-validated continuation bytes); any
other byte (stray continuation, overlong/surrogate/out-of-range starter, or
truncated sequence) is skipped one byte at a time, contributing one
replacement per maximal invalid run (the `inv` flag records whether the
previous byte was invalid, exactly as the `invalid` variable of the Go
loop). -/
def utf8Scan : List Nat → Nat → Bool → List Nat
  | [], _, _ => []
  | b :: rest, pending, inv =>
    match pending with
    | p + 1 => b :: utf8Scan rest p false
    | 0 =>
      if b < 0x80 then b :: utf8Scan rest 0 false
      else if (0xC2 ≤ b ∧ b ≤ 0xDF) ∧ cont2Ok rest = true then
        b :: utf8Scan rest 1 false
      else if (0xE0 ≤ b ∧ b ≤ 0xEF) ∧ cont3Ok b rest = true then
        b :: utf8Scan rest 2 false
      else if (0xF0 ≤ b ∧ b ≤ 0xF4) ∧ cont4Ok b rest = true then
        b :: utf8Scan rest 3 false
      else emitRepl inv (utf8Scan rest 0 true)

/-- Embedding of Go's `strings.ToValidUTF8(s, "❗")`. -/
def toValidUTF8 (l : List Nat) : List Nat := utf8Scan l 0 false

/-- Embedding of `sanitizer.UTF8`: replace invalid UTF-8, then strip NUL
bytes (`strings.Replace` with the one-byte pattern, count -1, removes every
NUL byte). -/
def sanitizeUTF8 (l : List Nat) : List Nat :=
  (toValidUTF8 l).filter fun b => b != 0

/-- Well-formed UTF-8 byte sequences, following the acceptance ranges of
Go's `unicode/utf8` package. -/
inductive ValidUTF8 : List Nat → Prop where
  | nil : ValidUTF8 []
  | one {b : Nat} {l : List Nat} : b < 0x80 → ValidUTF8 l → ValidUTF8 (b :: l)
  | two {b0 b1 : Nat} {l : List Nat} : 0xC2 ≤ b0 → b0 ≤ 0xDF →
      contByte b1 = true → ValidUTF8 l → ValidUTF8 (b0 :: b1 :: l)
  | three {b0 b1 b2 : Nat} {l : List Nat} : 0xE0 ≤ b0 → b0 ≤ 0xEF →
      lo3 b0 ≤ b1 → b1 ≤ hi3 b0 → contByte b2 = true → ValidUTF8 l →
      ValidUTF8 (b0 :: b1 :: b2 :: l)
  | four {b0 b1 b2 b3 : Nat} {l : List Nat} : 0xF0 ≤ b0 → b0 ≤ 0xF4 →
      lo4 b0 ≤ b1 → b1 ≤ hi4 b0 → contByte b2 = true → contByte b3 = true →
      ValidUTF8 l → ValidUTF8 (b0 :: b1 :: b2 :: b3 :: l)

/-!  Concrete inputs and oracles used by witnesses and counterexamples. -/

/-- Oracle for which every request fails on the network. -/
def netErrOracle : List Char → ReqOutcome := fun _ => ReqOutcome.netErr

/-- Two-credential oracle for which every request fails on the network. -/
def netErrOracle2 : List Char → List Char → NetOutcome := fun _ _ => NetOutcome.netErr

/-- Oracle returning status 200 with a body containing `ipAddress`. -/
def okBodyOracle : List Char → ReqOutcome :=
  fun _ => ReqOutcome.ok 200 (("res ipAddress ok").data)

/-- Oracle for which the rfc3164 and rfc5424 parsers always fail. -/
def parseFailOracle : List Nat → ParseOutcome := fun _ => ParseOutcome.fail

/-- Chunk data containing the abuseipdb keyword and an 80-character key. -/
def dataAbuse : List Char := ("abuseipdb ").data ++ List.replicate 80 'a'

/-- The raw credential matched inside `dataAbuse`. -/
def rawAbuse : List Char := List.replicate 80 'a'

/-- Chunk data containing the walkscore keyword and a low-entropy
32-character key. -/
def dataWalk : List Char := ("walkscore ").data ++ List.replicate 32 'a'

/-- The raw credential matched inside `dataWalk`. -/
def rawWalk : List Char := List.replicate 32 'a'

/-- An okta API token (42 characters starting with 00). -/
def tokOkta : List Char :=
  ("00").data ++ ("abcdefghij").data ++ ("abcdefghij").data ++
    ("abcdefghij").data ++ ("abcdefghij").data

/-- Chunk data containing an okta token and an okta domain. -/
def dataOkta : List Char := tokOkta ++ [(' ')] ++ ("dev-1.okta.com").data

/-- A paypal client id (7 characters, dash, 72 characters). -/
def paypalId : List Char := ("abcdefg").data ++ [('-')] ++ List.replicate 72 'b'

/-- A paypal client secret (69 characters, dash, 10 characters). -/
def paypalKey : List Char :=
  List.replicate 69 'c' ++ [('-')] ++ ("0123456789").data

/-- Chunk data containing a paypal id and key but no occurrence of the
keyword `paypal`. -/
def dataPaypal : List Char := paypalId ++ [(' ')] ++ paypalKey

/-- A syslog connection configured for UDP with TLS material and an empty
listen address. -/
def connUdpTls : SyslogConn := ⟨"udp", "", "", "x", ""⟩

/-- A syslog connection with every field empty. -/
def connEmpty : SyslogConn := ⟨"", "", "", "", ""⟩

/-- Two-credential body-reading oracle for which every request fails on the
network. -/
def netErrOracleR2 : List Char → List Char → ReqOutcome :=
  fun _ _ => ReqOutcome.netErr

/-- A response body containing `auth_token`. -/
def bodyCC : List Char := ("auth_token granted").data

/-- Oracle answering every currencycloud request with status 500 — a non-2xx
status — and a body containing `auth_token`. -/
def netCC : List Char → List Char → ReqOutcome :=
  fun _ _ => ReqOutcome.ok 500 bodyCC

/-- A 64-character currencycloud API key. -/
def keyCC : List Char := List.replicate 64 'a'

/-- A currencycloud login email. -/
def emailCC : List Char := ("ab@cd.ef").data

/-- Chunk data containing the currencycloud keyword, a key and an email. -/
def dataCC : List Char :=
  ("currencycloud ").data ++ keyCC ++ [(' ')] ++ emailCC

/-!  Helper lemmas. -/

/-- Prepending the replacement bytes preserves well-formedness. -/
theorem validUTF8_emitRepl {rest : List Nat} (inv : Bool) (h : ValidUTF8 rest) :
    ValidUTF8 (emitRepl inv rest) := by
  cases inv with
  | true => simpa [emitRepl] using h
  | false =>
    simp only [emitRepl, if_neg Bool.false_ne_true, replacementBytes,
      List.cons_append, List.nil_append]
    exact .three (by norm_num) (by norm_num) (by norm_num [lo3])
      (by norm_num [hi3]) (by decide) h

/-- The scan of an ASCII byte copies it. -/
theorem utf8Scan_ascii {b : Nat} (h : b < 0x80) (l : List Nat) (inv : Bool) :
    utf8Scan (b :: l) 0 inv = b :: utf8Scan l 0 false := by
  simp [utf8Scan, h]

/-- The scan of a well-formed two-byte sequence copies it. -/
theorem utf8Scan_two {b0 b1 : Nat} (h1 : 0xC2 ≤ b0) (h2 : b0 ≤ 0xDF)
    (h3 : contByte b1 = true) (l : List Nat) (inv : Bool) :
    utf8Scan (b0 :: b1 :: l) 0 inv = b0 :: b1 :: utf8Scan l 0 false := by
  have hna : ¬ b0 < 0x80 := by omega
  simp [utf8Scan, hna, cont2Ok, h1, h2, h3]

/-- The scan of a well-formed three-byte sequence copies it. -/
theorem utf8Scan_three {b0 b1 b2 : Nat} (h1 : 0xE0 ≤ b0) (h2 : b0 ≤ 0xEF)
    (h3 : lo3 b0 ≤ b1) (h4 : b1 ≤ hi3 b0) (h5 : contByte b2 = true)
    (l : List Nat) (inv : Bool) :
    utf8Scan (b0 :: b1 :: b2 :: l) 0 inv = b0 :: b1 :: b2 :: utf8Scan l 0 false := by
  have hna : ¬ b0 < 0x80 := by omega
  have hn2 : ¬ (0xC2 ≤ b0 ∧ b0 ≤ 0xDF) := by omega
  simp [utf8Scan, hna, hn2, cont3Ok, h1, h2, h3, h4, h5]

/-- The scan of a well-formed four-byte sequence copies it. -/
theorem utf8Scan_four {b0 b1 b2 b3 : Nat} (h1 : 0xF0 ≤ b0) (h2 : b0 ≤ 0xF4)
    (h3 : lo4 b0 ≤ b1) (h4 : b1 ≤ hi4 b0) (h5 : contByte b2 = true)
    (h6 : contByte b3 = true) (l : List Nat) (inv : Bool) :
    utf8Scan (b0 :: b1 :: b2 :: b3 :: l) 0 inv =
      b0 :: b1 :: b2 :: b3 :: utf8Scan l 0 false := by
  have hna : ¬ b0 < 0x80 := by omega
  have hn2 : ¬ (0xC2 ≤ b0 ∧ b0 ≤ 0xDF) := by omega
  have hn3 : ¬ (0xE0 ≤ b0 ∧ b0 ≤ 0xEF) := by omega
  simp [utf8Scan, hna, hn2, hn3, cont4Ok, h1, h2, h3, h4, h5, h6]

/-- The scan from a clean state always produces well-formed UTF-8. -/
theorem utf8Scan_valid : ∀ (n : Nat) (l : List Nat), l.length ≤ n → ∀ (inv : Bool),
    ValidUTF8 (utf8Scan l 0 inv) := by
  intro n
  induction n with
  | zero =>
    intro l hl inv
    have : l = [] := List.eq_nil_of_length_eq_zero (Nat.le_zero.mp hl)
    subst this
    exact .nil
  | succ n ih =>
    intro l hl inv
    match l with
    | [] => exact .nil
    | b :: rest =>
      simp only [utf8Scan]
      by_cases h1 : b < 0x80
      · rw [if_pos h1]
        exact .one h1 (ih rest (by simp at hl; omega) false)
      · rw [if_neg h1]
        by_cases h2 : (0xC2 ≤ b ∧ b ≤ 0xDF) ∧ cont2Ok rest = true
        · rw [if_pos h2]
          match rest, h2 with
          | b1 :: rest', ⟨hb, hc⟩ =>
            simp only [cont2Ok] at hc
            simp only [utf8Scan]
            exact .two hb.1 hb.2 hc (ih rest' (by simp at hl; omega) false)
        · rw [if_neg h2]
          by_cases h3 : (0xE0 ≤ b ∧ b ≤ 0xEF) ∧ cont3Ok b rest = true
          · rw [if_pos h3]
            match rest, h3 with
            | b1 :: b2 :: rest', ⟨hb, hc⟩ =>
              simp only [cont3Ok, Bool.and_eq_true, decide_eq_true_eq] at hc
              simp only [utf8Scan]
              exact .three hb.1 hb.2 hc.1.1 hc.1.2 hc.2
                (ih rest' (by simp at hl; omega) false)
          · rw [if_neg h3]
            by_cases h4 : (0xF0 ≤ b ∧ b ≤ 0xF4) ∧ cont4Ok b rest = true
            · rw [if_pos h4]
              match rest, h4 with
              | b1 :: b2 :: b3 :: rest', ⟨hb, hc⟩ =>
                simp only [cont4Ok, Bool.and_eq_true, decide_eq_true_eq] at hc
                simp only [utf8Scan]
                exact .four hb.1 hb.2 hc.1.1.1 hc.1.1.2 hc.1.2 hc.2
                  (ih rest' (by simp at hl; omega) false)
            · rw [if_neg h4]
              exact validUTF8_emitRepl inv (ih rest (by simp at hl; omega) true)

/-- The output of the embedded `ToValidUTF8` is well-formed UTF-8. -/
theorem toValidUTF8_valid (l : List Nat) : ValidUTF8 (toValidUTF8 l) :=
  utf8Scan_valid l.length l le_rfl false

/-- The embedded `ToValidUTF8` is the identity on well-formed input. -/
theorem toValidUTF8_of_valid {l : List Nat} (h : ValidUTF8 l) : toValidUTF8 l = l := by
  unfold toValidUTF8
  induction h with
  | nil => rfl
  | one h1 _ ih => rw [utf8Scan_ascii h1, ih]
  | two h1 h2 h3 _ ih => rw [utf8Scan_two h1 h2 h3, ih]
  | three h1 h2 h3 h4 h5 _ ih => rw [utf8Scan_three h1 h2 h3 h4 h5, ih]
  | four h1 h2 h3 h4 h5 h6 _ ih => rw [utf8Scan_four h1 h2 h3 h4 h5 h6, ih]

/-- Removing NUL bytes preserves well-formedness: a NUL can only occur as a
standalone ASCII code point, never inside a multi-byte sequence. -/
theorem validUTF8_filter_nonzero {l : List Nat} (h : ValidUTF8 l) :
    ValidUTF8 (l.filter fun b => b != 0) := by
  induction h with
  | nil => exact .nil
  | @one b l' h1 _ ih =>
    by_cases hb : b = 0
    · subst hb
      simpa using ih
    · rw [List.filter_cons_of_pos (by simpa using hb)]
      exact .one h1 ih
  | @two b0 b1 l' h1 h2 h3 _ ih =>
    rw [List.filter_cons_of_pos (by simp; omega),
      List.filter_cons_of_pos (by simp [contByte] at h3 ⊢; omega)]
    exact .two h1 h2 h3 ih
  | @three b0 b1 b2 l' h1 h2 h3 h4 h5 _ ih =>
    have hb1 : 0x80 ≤ b1 := le_trans (by simp [lo3]; split <;> omega) h3
    rw [List.filter_cons_of_pos (by simp; omega),
      List.filter_cons_of_pos (by simp; omega),
      List.filter_cons_of_pos (by simp [contByte] at h5 ⊢; omega)]
    exact .three h1 h2 h3 h4 h5 ih
  | @four b0 b1 b2 b3 l' h1 h2 h3 h4 h5 h6 _ ih =>
    have hb1 : 0x80 ≤ b1 := le_trans (by simp [lo4]; split <;> omega) h3
    rw [List.filter_cons_of_pos (by simp; omega),
      List.filter_cons_of_pos (by simp; omega),
      List.filter_cons_of_pos (by simp [contByte] at h5 ⊢; omega),
      List.filter_cons_of_pos (by simp [contByte] at h6 ⊢; omega)]
    exact .four h1 h2 h3 h4 h5 h6 ih

/-- The sanitizer output is well-formed UTF-8. -/
theorem sanitizeUTF8_valid (l : List Nat) : ValidUTF8 (sanitizeUTF8 l) :=
  validUTF8_filter_nonzero (toValidUTF8_valid l)

/-- The sanitizer is idempotent. -/
theorem sanitizeUTF8_idem (l : List Nat) :
    sanitizeUTF8 (sanitizeUTF8 l) = sanitizeUTF8 l := by
  have h := toValidUTF8_of_valid (sanitizeUTF8_valid l)
  unfold sanitizeUTF8 at h ⊢
  rw [h, List.filter_filter]
  simp

/-- Elements of `cleanInsert r acc` are `r` or come from `acc`. -/
theorem cleanInsert_mem {x r : Result} :
    ∀ {acc : List Result}, x ∈ cleanInsert r acc → x = r ∨ x ∈ acc := by
  intro acc
  induction acc with
  | nil => simp [cleanInsert]
  | cons y ys ih =>
    simp only [cleanInsert]
    split
    · split
      · intro h
        right
        exact h
      · intro h
        rcases List.mem_cons.mp h with h | h
        · exact Or.inl h
        · exact Or.inr (List.mem_cons_of_mem _ h)
    · intro h
      rcases List.mem_cons.mp h with h | h
      · exact Or.inr (h ▸ List.mem_cons_self _ _)
      · rcases ih h with h | h
        · exact Or.inl h
        · exact Or.inr (List.mem_cons_of_mem _ h)

/-- Elements of `CleanResults l` are elements of `l`: cleaning only selects
among the produced results. -/
theorem CleanResults_subset {x : Result} {l : List Result} :
    x ∈ CleanResults l → x ∈ l := by
  have main : ∀ (l : List Result) (acc : List Result),
      x ∈ l.foldl (fun a r => cleanInsert r a) acc → x ∈ acc ∨ x ∈ l := by
    intro l
    induction l with
    | nil => simp
    | cons r rs ih =>
      intro acc h
      rcases ih (cleanInsert r acc) h with h | h
      · rcases cleanInsert_mem h with h | h
        · exact Or.inr (h ▸ List.mem_cons_self _ _)
        · exact Or.inl h
      · exact Or.inr (List.mem_cons_of_mem _ h)
  intro h
  rcases main l [] h with h | h
  · simp at h
  · exact h

theorem abuseipdbProcess_false (net : List Char → ReqOutcome) (ms : List (List Char)) :
    abuseipdbProcess false net ms =
      ms.map fun m => (⟨.AbuseIPDB, trimSpace m, false⟩ : Result) := by
  induction ms with
  | nil => rfl
  | cons m ms ih => simp [abuseipdbProcess, ih]

theorem abuseipdbProcess_verified {net : List Char → ReqOutcome}
    {ms : List (List Char)} {r : Result} (h : r ∈ abuseipdbProcess true net ms)
    (hv : r.verified = true) :
    ∃ st body, net r.raw = ReqOutcome.ok st body ∧ (200 ≤ st ∧ st < 300) ∧
      containsStr body ipAddressChars = true := by
  induction ms with
  | nil => simp [abuseipdbProcess] at h
  | cons m ms ih =>
    simp only [abuseipdbProcess, if_true] at h
    cases hn : net (trimSpace m) with
    | buildErr =>
      simp only [hn] at h
      exact ih h
    | netErr =>
      simp only [hn] at h
      rcases List.mem_cons.mp h with h | h
      · subst h
        simp at hv
      · exact ih h
    | readErr =>
      simp only [hn] at h
      rcases List.mem_cons.mp h with h | h
      · subst h
        simp at hv
      · exact ih h
    | ok st body =>
      simp only [hn] at h
      by_cases h2 : 200 ≤ st ∧ st < 300
      · rw [if_pos h2] at h
        rcases List.mem_cons.mp h with h | h
        · subst h
          simp only at hv
          exact ⟨st, body, hn, h2, hv⟩
        · exact ih h
      · rw [if_neg h2] at h
        by_cases h3 : IsKnownFalsePositive (trimSpace m) DefaultFalsePositives true = true
        · rw [if_pos h3] at h
          exact ih h
        · rw [if_neg h3] at h
          rcases List.mem_cons.mp h with h | h
          · subst h
            simp at hv
          · exact ih h

theorem walkscoreProcess_false (net : List Char → ReqOutcome) (ms : List (List Char)) :
    walkscoreProcess false net ms =
      ms.map fun m => (⟨.WalkScore, trimSpace m, false⟩ : Result) := by
  induction ms with
  | nil => rfl
  | cons m ms ih => simp [walkscoreProcess, ih]

theorem walkscoreProcess_inv {net : List Char → ReqOutcome}
    {ms : List (List Char)} {r : Result} (h : r ∈ walkscoreProcess true net ms) :
    (r.verified = true → ∃ st body, net r.raw = ReqOutcome.ok st body ∧
      (200 ≤ st ∧ st < 300) ∧ containsStr body distanceChars = true) ∧
    (r.verified = false → ∀ st body, net r.raw = ReqOutcome.ok st body →
      IsKnownFalsePositive r.raw DefaultFalsePositives true = false) := by
  induction ms with
  | nil => simp [walkscoreProcess] at h
  | cons m ms ih =>
    simp only [walkscoreProcess, if_true] at h
    cases hn : net (trimSpace m) with
    | buildErr =>
      simp only [hn] at h
      exact ih h
    | netErr =>
      simp only [hn] at h
      rcases List.mem_cons.mp h with h | h
      · subst h
        refine ⟨fun hv => by simp at hv, fun _ st body heq => ?_⟩
        simp only at heq
        rw [hn] at heq
        exact absurd heq (by simp)
      · exact ih h
    | readErr =>
      simp only [hn] at h
      exact ih h
    | ok st body =>
      simp only [hn] at h
      by_cases h2 : (200 ≤ st ∧ st < 300) ∧ containsStr body distanceChars = true
      · rw [if_pos h2] at h
        rcases List.mem_cons.mp h with h | h
        · subst h
          refine ⟨fun _ => ⟨st, body, hn, h2.1, h2.2⟩, fun hv => by simp at hv⟩
        · exact ih h
      · rw [if_neg h2] at h
        by_cases h3 : IsKnownFalsePositive (trimSpace m) DefaultFalsePositives true = true
        · rw [if_pos h3] at h
          exact ih h
        · rw [if_neg h3] at h
          rcases List.mem_cons.mp h with h | h
          · subst h
            refine ⟨fun hv => by simp at hv, fun _ st' body' heq => ?_⟩
            simp only at heq
            rw [hn] at heq
            cases heq
            simpa using h3
          · exact ih h

theorem oktaDomainsLoop_mem {v : Bool} {net : List Char → List Char → NetOutcome}
    {t : List Char} :
    ∀ {ds : List (List Char)} {acc : List Result} {r : Result},
      r ∈ (oktaDomainsLoop v net t ds acc).1 →
      r ∈ acc ∨ (r.raw = t ∧ r.detectorType = .Okta ∧
        (r.verified = true → v = true ∧
          ∃ d st, net d t = NetOutcome.ok st ∧ 200 ≤ st ∧ st < 300) ∧
        (r.verified = false →
          IsKnownFalsePositive t DefaultFalsePositives true = false)) := by
  intro ds
  cases v with
  | false =>
    induction ds with
    | nil =>
      intro acc r h
      exact Or.inl h
    | cons d rest ih =>
      intro acc r h
      simp only [oktaDomainsLoop, Bool.false_eq_true, if_false] at h
      by_cases hfp : IsKnownFalsePositive t DefaultFalsePositives true = true
      · rw [if_pos hfp] at h
        exact ih h
      · rw [if_neg hfp] at h
        rcases ih h with h | h
        · rcases List.mem_append.mp h with h | h
          · exact Or.inl h
          · rcases List.mem_singleton.mp h with rfl
            refine Or.inr ⟨rfl, rfl, fun hv => by simp at hv,
              fun _ => by simpa using hfp⟩
        · exact Or.inr h
  | true =>
    induction ds with
    | nil =>
      intro acc r h
      exact Or.inl h
    | cons d rest ih =>
      intro acc r h
      simp only [oktaDomainsLoop, if_true] at h
      cases hn : net d t with
      | buildErr =>
        simp only [hn] at h
        exact Or.inl h
      | netErr =>
        simp only [hn] at h
        exact Or.inl h
      | ok st =>
        simp only [hn] at h
        by_cases hfp : (decide (200 ≤ st ∧ st < 300) = false) ∧
            IsKnownFalsePositive t DefaultFalsePositives true = true
        · rw [if_pos hfp] at h
          exact ih h
        · rw [if_neg hfp] at h
          rcases ih h with h | h
          · rcases List.mem_append.mp h with h | h
            · exact Or.inl h
            · rcases List.mem_singleton.mp h with rfl
              refine Or.inr ⟨rfl, rfl, fun hv => ?_, fun hv => ?_⟩
              · simp only at hv
                exact ⟨rfl, d, st, hn, of_decide_eq_true hv⟩
              · simp only at hv
                rcases not_and_or.mp hfp with hc | hc
                · exact absurd hv (by simpa using hc)
                · simpa using hc
          · exact Or.inr h

theorem oktaTokensLoop_mem {v : Bool} {net : List Char → List Char → NetOutcome}
    {ds : List (List Char)} :
    ∀ {ts : List (List Char)} {acc : List Result} {r : Result},
      r ∈ (oktaTokensLoop v net ts ds acc).1 →
      r ∈ acc ∨ (r.detectorType = .Okta ∧
        (r.verified = true → v = true ∧
          ∃ d st, net d r.raw = NetOutcome.ok st ∧ 200 ≤ st ∧ st < 300) ∧
        (r.verified = false →
          IsKnownFalsePositive r.raw DefaultFalsePositives true = false)) := by
  intro ts
  induction ts with
  | nil =>
    intro acc r h
    exact Or.inl h
  | cons t ts ih =>
    intro acc r h
    simp only [oktaTokensLoop] at h
    rcases hd : oktaDomainsLoop v net t ds acc with ⟨acc2, e⟩
    rw [hd] at h
    have hdm : ∀ {x : Result}, x ∈ acc2 → x ∈ acc ∨ (x.raw = t ∧
        x.detectorType = .Okta ∧
        (x.verified = true → v = true ∧
          ∃ d st, net d t = NetOutcome.ok st ∧ 200 ≤ st ∧ st < 300) ∧
        (x.verified = false →
          IsKnownFalsePositive t DefaultFalsePositives true = false)) := by
      intro x hx
      have hgen := @oktaDomainsLoop_mem v net t ds acc x
      rw [hd] at hgen
      exact hgen hx
    cases e with
    | none =>
      simp only at h
      rcases ih h with h | h
      · rcases hdm h with h | ⟨hraw, hdt, h1, h2⟩
        · exact Or.inl h
        · exact Or.inr ⟨hdt, by rw [hraw]; exact h1, by rw [hraw]; exact h2⟩
      · exact Or.inr h
    | some u =>
      simp only at h
      rcases hdm h with h | ⟨hraw, hdt, h1, h2⟩
      · exact Or.inl h
      · exact Or.inr ⟨hdt, by rw [hraw]; exact h1, by rw [hraw]; exact h2⟩

theorem oktaFromData_mem {v : Bool} {net : List Char → List Char → NetOutcome}
    {data : List Char} {r : Result} (h : r ∈ (oktaFromData v net data).1) :
    r.detectorType = .Okta ∧
    (r.verified = true → v = true ∧
      ∃ d st, net d r.raw = NetOutcome.ok st ∧ 200 ≤ st ∧ st < 300) ∧
    (r.verified = false →
      IsKnownFalsePositive r.raw DefaultFalsePositives true = false) := by
  rcases oktaTokensLoop_mem h with h | h
  · simp at h
  · exact h

theorem oktaDomainsLoop_false_net (net net' : List Char → List Char → NetOutcome)
    (t : List Char) :
    ∀ (ds : List (List Char)) (acc : List Result),
      oktaDomainsLoop false net t ds acc = oktaDomainsLoop false net' t ds acc := by
  intro ds
  induction ds with
  | nil =>
    intro acc
    rfl
  | cons d rest ih =>
    intro acc
    simp only [oktaDomainsLoop, Bool.false_eq_true, if_false]
    split
    · exact ih acc
    · exact ih _

theorem oktaTokensLoop_false_net (net net' : List Char → List Char → NetOutcome)
    (ds : List (List Char)) :
    ∀ (ts : List (List Char)) (acc : List Result),
      oktaTokensLoop false net ts ds acc = oktaTokensLoop false net' ts ds acc := by
  intro ts
  induction ts with
  | nil =>
    intro acc
    rfl
  | cons t ts ih =>
    intro acc
    simp only [oktaTokensLoop]
    rw [← oktaDomainsLoop_false_net net net' t ds acc]
    rcases hd : oktaDomainsLoop false net t ds acc with ⟨acc2, e⟩
    cases e with
    | none => exact ih acc2
    | some u => rfl

theorem verifierEmailLoop_false (net : List Char → List Char → NetOutcome)
    (rm : List Char) (ids : List (List Char)) :
    verifierEmailLoop false net rm ids =
      ids.map fun _ => (⟨.Verifier, rm, false⟩ : Result) := by
  induction ids with
  | nil => rfl
  | cons i ids ih => simp [verifierEmailLoop, ih]

theorem verifierKeyLoop_false (net : List Char → List Char → NetOutcome)
    (ids : List (List Char)) (ms : List (List Char)) :
    verifierKeyLoop false net ids ms =
      (ms.map fun m =>
        ids.map fun _ => (⟨.Verifier, trimSpace m, false⟩ : Result)).flatten := by
  induction ms with
  | nil => rfl
  | cons m ms ih => simp [verifierKeyLoop, verifierEmailLoop_false, ih]

/-- Every result emitted by the verifier email loop carries the key it was
called with as its raw value. -/
theorem verifierEmailLoop_raw (verify : Bool)
    (net : List Char → List Char → NetOutcome) (rm : List Char) :
    ∀ {ids : List (List Char)} {r : Result},
      r ∈ verifierEmailLoop verify net rm ids → r.raw = rm := by
  intro ids
  induction ids with
  | nil =>
    intro r h
    simp [verifierEmailLoop] at h
  | cons idm rest ih =>
    intro r h
    cases verify with
    | false =>
      simp only [verifierEmailLoop, Bool.false_eq_true, if_false] at h
      rcases List.mem_cons.mp h with rfl | h
      · rfl
      · exact ih h
    | true =>
      simp only [verifierEmailLoop, if_true] at h
      cases hn : net (trimSpace idm) rm with
      | buildErr =>
        simp only [hn] at h
        exact ih h
      | netErr =>
        simp only [hn] at h
        rcases List.mem_cons.mp h with rfl | h
        · rfl
        · exact ih h
      | ok st =>
        simp only [hn] at h
        by_cases h2 : 200 ≤ st ∧ st < 300
        · rw [if_pos h2] at h
          rcases List.mem_cons.mp h with rfl | h
          · rfl
          · exact ih h
        · rw [if_neg h2] at h
          by_cases h3 : IsKnownFalsePositive rm DefaultFalsePositives true = true
          · rw [if_pos h3] at h
            exact ih h
          · rw [if_neg h3] at h
            rcases List.mem_cons.mp h with rfl | h
            · rfl
            · exact ih h

/-- When every request of the verifier email loop yields a non-2xx response,
an emitted unverified result for the key is never a known false positive:
such a result can only come from the filtered failed-response branch. -/
theorem verifierEmailLoop_nonfp (net : List Char → List Char → NetOutcome)
    (rm : List Char)
    (hall : ∀ e, ∃ st, net e rm = NetOutcome.ok st ∧ ¬(200 ≤ st ∧ st < 300)) :
    ∀ {ids : List (List Char)} {r : Result},
      r ∈ verifierEmailLoop true net rm ids → r.verified = false →
      IsKnownFalsePositive rm DefaultFalsePositives true = false := by
  intro ids
  induction ids with
  | nil =>
    intro r h
    simp [verifierEmailLoop] at h
  | cons idm rest ih =>
    intro r h hv
    simp only [verifierEmailLoop, if_true] at h
    rcases hall (trimSpace idm) with ⟨st, heq, hnot⟩
    simp only [heq] at h
    rw [if_neg hnot] at h
    by_cases hfp : IsKnownFalsePositive rm DefaultFalsePositives true = true
    · rw [if_pos hfp] at h
      exact ih h hv
    · simpa using hfp

/-- Key-loop version of `verifierEmailLoop_nonfp`. -/
theorem verifierKeyLoop_nonfp (net : List Char → List Char → NetOutcome)
    (ids : List (List Char)) :
    ∀ {ms : List (List Char)} {r : Result},
      r ∈ verifierKeyLoop true net ids ms → r.verified = false →
      (∀ e, ∃ st, net e r.raw = NetOutcome.ok st ∧ ¬(200 ≤ st ∧ st < 300)) →
      IsKnownFalsePositive r.raw DefaultFalsePositives true = false := by
  intro ms
  induction ms with
  | nil =>
    intro r h
    simp [verifierKeyLoop] at h
  | cons m ms ih =>
    intro r h hv hall
    simp only [verifierKeyLoop] at h
    rcases List.mem_append.mp h with h | h
    · have hraw : r.raw = trimSpace m := verifierEmailLoop_raw true net _ h
      rw [hraw] at hall ⊢
      exact verifierEmailLoop_nonfp net (trimSpace m) hall h hv
    · exact ih h hv hall

/-- With `verify` false, the currencycloud email loop emits one unverified
result per email and consults neither the oracle nor the classifier. -/
theorem currencycloudEmailLoop_false (net : List Char → List Char → ReqOutcome)
    (rm : List Char) (ids : List (List Char)) :
    currencycloudEmailLoop false net rm ids =
      ids.map fun _ => (⟨.CurrencyCloud, rm, false⟩ : Result) := by
  induction ids with
  | nil => rfl
  | cons i ids ih => simp [currencycloudEmailLoop, ih]

/-- With `verify` false, the currencycloud key loop emits the full product of
keys and emails, unverified and unfiltered. -/
theorem currencycloudKeyLoop_false (net : List Char → List Char → ReqOutcome)
    (ids : List (List Char)) (ms : List (List Char)) :
    currencycloudKeyLoop false net ids ms =
      (ms.map fun m =>
        ids.map fun _ => (⟨.CurrencyCloud, trimSpace m, false⟩ : Result)).flatten := by
  induction ms with
  | nil => rfl
  | cons m ms ih => simp [currencycloudKeyLoop, currencycloudEmailLoop_false, ih]

/-- Every result emitted by the currencycloud email loop carries the key it
was called with as its raw value. -/
theorem currencycloudEmailLoop_raw (verify : Bool)
    (net : List Char → List Char → ReqOutcome) (rm : List Char) :
    ∀ {ids : List (List Char)} {r : Result},
      r ∈ currencycloudEmailLoop verify net rm ids → r.raw = rm := by
  intro ids
  induction ids with
  | nil =>
    intro r h
    simp [currencycloudEmailLoop] at h
  | cons em rest ih =>
    intro r h
    cases verify with
    | false =>
      simp only [currencycloudEmailLoop, Bool.false_eq_true, if_false] at h
      rcases List.mem_cons.mp h with rfl | h
      · rfl
      · exact ih h
    | true =>
      simp only [currencycloudEmailLoop, if_true] at h
      cases hn : net (trimSpace em) rm with
      | buildErr =>
        simp only [hn] at h
        exact ih h
      | netErr =>
        simp only [hn] at h
        rcases List.mem_cons.mp h with rfl | h
        · rfl
        · exact ih h
      | readErr =>
        simp only [hn] at h
        exact ih h
      | ok st body =>
        simp only [hn] at h
        by_cases h2 : containsStr body authTokenChars = true
        · rw [if_pos h2] at h
          rcases List.mem_cons.mp h with rfl | h
          · rfl
          · exact ih h
        · rw [if_neg h2] at h
          by_cases h3 : IsKnownFalsePositive rm DefaultFalsePositives true = true
          · rw [if_pos h3] at h
            exact ih h
          · rw [if_neg h3] at h
            rcases List.mem_cons.mp h with rfl | h
            · rfl
            · exact ih h

/-- A verified currencycloud result comes from a response whose body
contains `auth_token` — the status code is not constrained. -/
theorem currencycloudEmailLoop_verified (net : List Char → List Char → ReqOutcome)
    (rm : List Char) :
    ∀ {ids : List (List Char)} {r : Result},
      r ∈ currencycloudEmailLoop true net rm ids → r.verified = true →
      ∃ e st body, net e rm = ReqOutcome.ok st body ∧
        containsStr body authTokenChars = true := by
  intro ids
  induction ids with
  | nil =>
    intro r h
    simp [currencycloudEmailLoop] at h
  | cons em rest ih =>
    intro r h hv
    simp only [currencycloudEmailLoop, if_true] at h
    cases hn : net (trimSpace em) rm with
    | buildErr =>
      simp only [hn] at h
      exact ih h hv
    | netErr =>
      simp only [hn] at h
      rcases List.mem_cons.mp h with rfl | h
      · simp at hv
      · exact ih h hv
    | readErr =>
      simp only [hn] at h
      exact ih h hv
    | ok st body =>
      simp only [hn] at h
      by_cases h2 : containsStr body authTokenChars = true
      · rw [if_pos h2] at h
        rcases List.mem_cons.mp h with rfl | h
        · exact ⟨trimSpace em, st, body, hn, h2⟩
        · exact ih h hv
      · rw [if_neg h2] at h
        by_cases h3 : IsKnownFalsePositive rm DefaultFalsePositives true = true
        · rw [if_pos h3] at h
          exact ih h hv
        · rw [if_neg h3] at h
          rcases List.mem_cons.mp h with rfl | h
          · simp at hv
          · exact ih h hv

/-- Key-loop version of `currencycloudEmailLoop_verified`. -/
theorem currencycloudKeyLoop_verified (net : List Char → List Char → ReqOutcome)
    (ids : List (List Char)) :
    ∀ {ms : List (List Char)} {r : Result},
      r ∈ currencycloudKeyLoop true net ids ms → r.verified = true →
      ∃ e st body, net e r.raw = ReqOutcome.ok st body ∧
        containsStr body authTokenChars = true := by
  intro ms
  induction ms with
  | nil =>
    intro r h
    simp [currencycloudKeyLoop] at h
  | cons m ms ih =>
    intro r h hv
    simp only [currencycloudKeyLoop] at h
    rcases List.mem_append.mp h with h | h
    · have hraw : r.raw = trimSpace m := currencycloudEmailLoop_raw true net _ h
      rw [hraw]
      exact currencycloudEmailLoop_verified net (trimSpace m) h hv
    · exact ih h hv

theorem readFromBuffer_length (b : Nat) (p : List Nat) :
    (readFromBuffer b p).length = b := by
  simp [readFromBuffer]
  omega

theorem readFromBuffer_take (b : Nat) (p : List Nat) :
    (readFromBuffer b p).take (min p.length b) = p.take b := by
  unfold readFromBuffer
  exact List.take_left' (by simp [Nat.min_comm])

theorem readFromBuffer_padding (b : Nat) (p : List Nat) (j : Nat)
    (h1 : min p.length b ≤ j) (h2 : j < b) :
    (readFromBuffer b p)[j]? = some 0 := by
  unfold readFromBuffer
  have hlen : (p.take b).length = min b p.length := by simp
  have hle : (p.take b).length ≤ j := by omega
  rw [List.getElem?_append_right hle, List.getElem?_replicate]
  rw [if_pos (by omega)]

theorem readFromBuffer_of_ge (b : Nat) (p : List Nat) (h : b ≤ p.length) :
    readFromBuffer b p = p.take b := by
  unfold readFromBuffer
  have : b - p.length = 0 := by omega
  simp [this]

/-- Counterexample for C1 as stated: with an oracle that answers every
currencycloud request with status 500 — a non-2xx status — and a body
containing `auth_token`, the currencycloud detector emits a result with
`verified = true`: its verification branch never inspects the status code,
so a result can be marked verified without any 2xx response. -/
theorem claim_C1_non2xx_verified_cex :
    (∀ e k, netCC e k = ReqOutcome.ok 500 bodyCC) ∧
    ¬(200 ≤ 500 ∧ 500 < 300) ∧
    (⟨.CurrencyCloud, keyCC, true⟩ : Result) ∈
      (currencycloudFromData true netCC dataCC).1 :=
  ⟨fun _ _ => rfl, by decide, by decide⟩

/-- Claim C1 as amended: with `verify` false no HTTP request is made (the
outcome is independent of the network oracle) and every returned result is
unverified, for abuseipdb, okta and currencycloud.  With `verify` true a
result is marked verified only from a live response, but the acceptance
test is per-vendor: abuseipdb requires a 2xx status and a body containing
`ipAddress`, okta requires a 2xx status, while currencycloud accepts any
response whose body contains `auth_token` with no status-code check — so
the universal 2xx requirement of the original claim fails. -/
theorem claim_C1_verification_discipline
    (verify : Bool) (netA netA2 : List Char → ReqOutcome)
    (netO netO2 : List Char → List Char → NetOutcome)
    (netC netC2 : List Char → List Char → ReqOutcome)
    (data : List Char) (r : Result) :
    (r ∈ (abuseipdbFromData verify netA data).1 → r.verified = true →
      verify = true ∧ ∃ st body, netA r.raw = ReqOutcome.ok st body ∧
        (200 ≤ st ∧ st < 300) ∧ containsStr body ipAddressChars = true) ∧
    (abuseipdbFromData false netA data = abuseipdbFromData false netA2 data) ∧
    (r ∈ (abuseipdbFromData false netA data).1 → r.verified = false) ∧
    (r ∈ (oktaFromData verify netO data).1 → r.verified = true →
      verify = true ∧
        ∃ d st, netO d r.raw = NetOutcome.ok st ∧ 200 ≤ st ∧ st < 300) ∧
    (oktaFromData false netO data = oktaFromData false netO2 data) ∧
    (r ∈ (oktaFromData false netO data).1 → r.verified = false) ∧
    (r ∈ (currencycloudFromData verify netC data).1 → r.verified = true →
      verify = true ∧ ∃ e st body, netC e r.raw = ReqOutcome.ok st body ∧
        containsStr body authTokenChars = true) ∧
    (currencycloudFromData false netC data =
      currencycloudFromData false netC2 data) ∧
    (r ∈ (currencycloudFromData false netC data).1 → r.verified = false) := by
  have habuse_false : ∀ (net : List Char → ReqOutcome) (x : Result),
      x ∈ (abuseipdbFromData false net data).1 → x.verified = false := by
    intro net x hx
    have hx' := CleanResults_subset hx
    rw [abuseipdbProcess_false] at hx'
    rcases List.mem_map.mp hx' with ⟨m, _, rfl⟩
    rfl
  have hcc_false : ∀ (net : List Char → List Char → ReqOutcome) (x : Result),
      x ∈ (currencycloudFromData false net data).1 → x.verified = false := by
    intro net x hx
    have hx' := CleanResults_subset hx
    rw [currencycloudKeyLoop_false] at hx'
    rcases List.mem_flatten.mp hx' with ⟨s, hs, hxs⟩
    rcases List.mem_map.mp hs with ⟨m, _, rfl⟩
    rcases List.mem_map.mp hxs with ⟨e, _, rfl⟩
    rfl
  refine ⟨?_, ?_, habuse_false netA r, ?_, ?_, ?_, ?_, ?_, hcc_false netC r⟩
  · intro hm hv
    cases verify with
    | false => exact absurd (habuse_false netA r hm) (by rw [hv]; simp)
    | true =>
      exact ⟨rfl, abuseipdbProcess_verified (CleanResults_subset hm) hv⟩
  · unfold abuseipdbFromData
    rw [abuseipdbProcess_false, abuseipdbProcess_false]
  · intro hm hv
    exact (oktaFromData_mem hm).2.1 hv
  · unfold oktaFromData
    rw [oktaTokensLoop_false_net netO netO2]
  · intro hm
    cases hveq : r.verified with
    | false => rfl
    | true =>
      rcases (oktaFromData_mem hm).2.1 hveq with ⟨hcontra, _⟩
      exact absurd hcontra (by simp)
  · intro hm hv
    cases verify with
    | false => exact absurd (hcc_false netC r hm) (by rw [hv]; simp)
    | true =>
      exact ⟨rfl,
        currencycloudKeyLoop_verified netC _ (CleanResults_subset hm) hv⟩
  · unfold currencycloudFromData
    rw [currencycloudKeyLoop_false, currencycloudKeyLoop_false]

/-- Witness for the amended C1: on data containing the abuseipdb keyword and
an 80-character key, with an oracle answering 200 and a body containing
`ipAddress`, the verified result is produced and the theorem yields the
2xx-with-content fact. -/
theorem claim_C1_witness :
    true = true ∧ ∃ st body, okBodyOracle rawAbuse = ReqOutcome.ok st body ∧
      (200 ≤ st ∧ st < 300) ∧ containsStr body ipAddressChars = true :=
  (claim_C1_verification_discipline true okBodyOracle okBodyOracle
    netErrOracle2 netErrOracle2 netErrOracleR2 netErrOracleR2 dataAbuse
    (⟨.AbuseIPDB, rawAbuse, true⟩ : Result)).1 (by decide) rfl

/-- Claim C2 (code evidence): the paypaloauth detector produces a result on
`dataPaypal` although its lowercased bytes do not contain the keyword
`paypal` — the detector's patterns contain no keyword, so pre-filter
soundness (P1) fails for it. -/
theorem claim_C2_paypal_prefilter_violation :
    (paypaloauthFromData false netErrOracle2 dataPaypal).1 =
      [(⟨.PaypalOauth, paypalKey, false⟩ : Result)] ∧
    containsStr (dataPaypal.map Char.toLower) (("paypal").data) = false :=
  ⟨by decide, by decide⟩

/-- Counterexample for C3 as stated: with `verify` false, a walkscore match
that the shared classifier rejects (a 32-character low-entropy key) is
nevertheless emitted — the false-positive filter is not applied to it. -/
theorem claim_C3_unverified_filter_cex :
    IsKnownFalsePositive rawWalk DefaultFalsePositives true = true ∧
    (walkscoreFromData false netErrOracle dataWalk).1 =
      [(⟨.WalkScore, rawWalk, false⟩ : Result)] :=
  ⟨by decide, by decide⟩

/-- Claim C3 as amended (for the cited detectors okta, walkscore and
verifier): okta passes every unverified match through the false-positive
classifier, for every verify value, and drops rejected ones — an emitted
unverified okta result is never a known false positive.  Walkscore and
verifier apply the classifier only on the failed-verification-response path
of the verify branch: an emitted unverified walkscore result whose request
produced an HTTP response, and an emitted unverified verifier result all of
whose requests produced non-2xx responses, are never known false positives.
With `verify` false, walkscore and verifier emit every match unverified
with no filtering at all. -/
theorem claim_C3_unverified_filter_amended
    (verify : Bool) (netW : List Char → ReqOutcome)
    (netO netV : List Char → List Char → NetOutcome) (data : List Char)
    (r : Result) (st : Nat) (body : List Char) :
    (r ∈ (oktaFromData verify netO data).1 → r.verified = false →
      IsKnownFalsePositive r.raw DefaultFalsePositives true = false) ∧
    (walkscoreFromData false netW data).1 =
      CleanResults ((findAllSub1 walkscore_keyPat data).map
        fun m => (⟨.WalkScore, trimSpace m, false⟩ : Result)) ∧
    (verifierFromData false netV data).1 =
      CleanResults (((findAllSub1 verifier_keyPat data).map fun m =>
        (findAllSub1 verifier_emailPat data).map fun _ =>
          (⟨.Verifier, trimSpace m, false⟩ : Result)).flatten) ∧
    (r ∈ (walkscoreFromData true netW data).1 → r.verified = false →
      netW r.raw = ReqOutcome.ok st body →
      IsKnownFalsePositive r.raw DefaultFalsePositives true = false) ∧
    (r ∈ (verifierFromData true netV data).1 → r.verified = false →
      (∀ e, ∃ st2, netV e r.raw = NetOutcome.ok st2 ∧
        ¬(200 ≤ st2 ∧ st2 < 300)) →
      IsKnownFalsePositive r.raw DefaultFalsePositives true = false) := by
  refine ⟨?_, ?_, ?_, ?_, ?_⟩
  · intro hm hv
    exact (oktaFromData_mem hm).2.2 hv
  · unfold walkscoreFromData
    rw [walkscoreProcess_false]
  · unfold verifierFromData
    rw [verifierKeyLoop_false]
  · intro hm hv hnet
    exact (walkscoreProcess_inv (CleanResults_subset hm)).2 hv st body hnet
  · intro hm hv hall
    exact verifierKeyLoop_nonfp netV _ (CleanResults_subset hm) hv hall

/-- Witness for the amended C3: the okta detector with `verify` false emits
the non-low-entropy token, and the theorem yields that the classifier does
not reject it. -/
theorem claim_C3_witness :
    IsKnownFalsePositive tokOkta DefaultFalsePositives true = false :=
  (claim_C3_unverified_filter_amended false netErrOracle netErrOracle2
    netErrOracle2 dataOkta (⟨.Okta, tokOkta, false⟩ : Result) 0 []).1
    (by decide) rfl

/-- Claim C10: the verifier, walkscore and abuseipdb detectors return a nil
error for every input, every verify flag and every network behaviour —
request-construction, network and body-read failures are all swallowed. -/
theorem claim_C10_nil_error (verify : Bool) (netA netW : List Char → ReqOutcome)
    (netV : List Char → List Char → NetOutcome) (data : List Char) :
    (verifierFromData verify netV data).2 = none ∧
    (walkscoreFromData verify netW data).2 = none ∧
    (abuseipdbFromData verify netA data).2 = none :=
  ⟨rfl, rfl, rfl⟩

/-- Counterexample for C4 as stated: the error message produced for a UDP
configuration with TLS material is the string `TLS is not supported over
UDP`, not the claimed `TLS not supported over UDP`. -/
theorem claim_C4_message_cex :
    (verifyConnectionConfig connUdpTls).2 = some ("TLS is not supported over UDP") ∧
    (verifyConnectionConfig connUdpTls).2 ≠ some ("TLS not supported over UDP") :=
  ⟨by decide, by decide⟩

/-- Claim C4 as amended: `verifyConnectionConfig` fails — with the message
`TLS is not supported over UDP`, which `Init` wraps with an
`invalid configuration` prefix — exactly when the configured protocol is
`udp` and TLS certificate or key material is present; every other
combination of the table passes the check. -/
theorem claim_C4_udp_tls_amended (c : SyslogConn) :
    (verifyConnectionConfig c).2 =
      if c.protocol = "udp" ∧ (c.tlsCert ≠ "" ∨ c.tlsKey ≠ "") then
        some ("TLS is not supported over UDP")
      else none := by
  unfold verifyConnectionConfig
  by_cases hp : c.protocol = ""
  · by_cases ht : c.tlsCert ≠ "" ∨ c.tlsKey ≠ ""
    · have htb : (c.tlsCert != "" || c.tlsKey != "") = true := by
        rcases ht with h | h <;> simp [h]
      simp [hp, htb, ht]
    · have htb : (c.tlsCert != "" || c.tlsKey != "") = false := by
        push_neg at ht
        simp [ht.1, ht.2]
      simp [hp, htb, ht]
  · by_cases ht : c.tlsCert ≠ "" ∨ c.tlsKey ≠ ""
    · have htb : (c.tlsCert != "" || c.tlsKey != "") = true := by
        rcases ht with h | h <;> simp [h]
      by_cases hu : c.protocol = "udp"
      · simp [hp, htb, ht, hu]
      · simp [hp, htb, ht, hu]
    · have htb : (c.tlsCert != "" || c.tlsKey != "") = false := by
        push_neg at ht
        simp [ht.1, ht.2]
      by_cases hu : c.protocol = "udp"
      · simp [hp, htb, ht, hu]
      · simp [hp, htb, ht, hu]

/-- Counterexample for C7 as stated: for a UDP-with-TLS configuration whose
listen address is empty, `verifyConnectionConfig` returns early with the
error and the listen address is not set to `:5140`. -/
theorem claim_C7_normalization_cex :
    connUdpTls.listenAddress = "" ∧
    (verifyConnectionConfig connUdpTls).1.listenAddress ≠ (":5140") :=
  ⟨rfl, by decide⟩

/-- Claim C7 as amended: the protocol default (udp, or tcp when TLS material
is present) is always applied; the listen-address and format defaults are
applied only when the protocol/TLS check passes — on the error path the
function returns early and leaves them untouched; the TLS fields are never
modified. -/
theorem claim_C7_normalization_amended (c : SyslogConn) :
    ((verifyConnectionConfig c).1.protocol =
      (if c.protocol = "" then
        (if c.tlsCert ≠ "" ∨ c.tlsKey ≠ "" then ("tcp") else ("udp"))
      else c.protocol)) ∧
    ((verifyConnectionConfig c).2 = none →
      (verifyConnectionConfig c).1.listenAddress =
        (if c.listenAddress = "" then (":5140") else c.listenAddress) ∧
      (verifyConnectionConfig c).1.format =
        (if c.format = "" then ("rfc3164") else c.format)) ∧
    ((verifyConnectionConfig c).2 ≠ none →
      (verifyConnectionConfig c).1.listenAddress = c.listenAddress ∧
      (verifyConnectionConfig c).1.format = c.format) ∧
    (verifyConnectionConfig c).1.tlsCert = c.tlsCert ∧
    (verifyConnectionConfig c).1.tlsKey = c.tlsKey := by
  unfold verifyConnectionConfig
  by_cases ht : c.tlsCert ≠ "" ∨ c.tlsKey ≠ ""
  · have htb : (c.tlsCert != "" || c.tlsKey != "") = true := by
      rcases ht with h | h <;> simp [h]
    by_cases hp : c.protocol = ""
    · by_cases ha : c.listenAddress = "" <;> by_cases hf : c.format = "" <;>
        simp [hp, htb, ht, ha, hf]
    · by_cases hu : c.protocol = "udp"
      · simp [hp, htb, ht, hu]
      · by_cases ha : c.listenAddress = "" <;> by_cases hf : c.format = "" <;>
          simp [hp, htb, ht, hu, ha, hf]
  · have htb : (c.tlsCert != "" || c.tlsKey != "") = false := by
      push_neg at ht
      simp [ht.1, ht.2]
    by_cases hp : c.protocol = ""
    · by_cases ha : c.listenAddress = "" <;> by_cases hf : c.format = "" <;>
        simp [hp, htb, ht, ha, hf]
    · by_cases hu : c.protocol = "udp" <;>
        by_cases ha : c.listenAddress = "" <;> by_cases hf : c.format = "" <;>
          simp [hp, htb, ht, hu, ha, hf]

/-- Witness for the amended C7: the all-empty configuration passes the check
and receives protocol udp; applying the theorem yields the defaulted listen
address and format. -/
theorem claim_C7_witness :
    (verifyConnectionConfig connEmpty).1.listenAddress =
      (if connEmpty.listenAddress = "" then (":5140") else connEmpty.listenAddress) ∧
    (verifyConnectionConfig connEmpty).1.format =
      (if connEmpty.format = "" then ("rfc3164") else connEmpty.format) :=
  (claim_C7_normalization_amended connEmpty).2.1 (by decide)

/-- Counterexample for C5 as stated: one chunk is emitted for a one-byte
packet, but its data is not the packet's bytes — it is the whole 65535-byte
read buffer (packet bytes followed by NUL padding). -/
theorem claim_C5_udp_data_cex :
    ((acceptUDPConnections ("rfc3164") parseFailOracle parseFailOracle ("src")
        false [([65], ("r"))]).length = 1) ∧
    ((acceptUDPConnections ("rfc3164") parseFailOracle parseFailOracle ("src")
        false [([65], ("r"))]).map fun c => c.data) ≠ [[65]] := by
  refine ⟨rfl, fun h => ?_⟩
  simp only [acceptUDPConnections, List.map_cons, List.map_nil] at h
  have h1 : readFromBuffer 65535 [65] = [65] := by simpa using h
  have h2 := readFromBuffer_length 65535 [65]
  rw [h1] at h2
  simp at h2

/-- Claim C5 as amended: UDP mode emits exactly one chunk per received
packet; the chunk data always has length 65535 and consists of the first
`min (packet length) 65535` bytes of the packet followed by NUL padding
(for a packet of at least 65535 bytes, the data is exactly the first 65535
bytes). -/
theorem claim_C5_udp_chunks_amended (format : String)
    (p1 p2 : List Nat → ParseOutcome) (name : String) (verify : Bool)
    (packets : List (List Nat × String)) (pkt : List Nat) (remote : String)
    (j : Nat) :
    ((acceptUDPConnections format p1 p2 name verify packets).length =
      packets.length) ∧
    (∀ c ∈ acceptUDPConnections format p1 p2 name verify packets,
      c.data.length = 65535) ∧
    ((acceptUDPConnections format p1 p2 name verify [(pkt, remote)]).map
        (fun c => c.data.take (min pkt.length 65535)) = [pkt.take 65535]) ∧
    (min pkt.length 65535 ≤ j → j < 65535 →
      ((acceptUDPConnections format p1 p2 name verify [(pkt, remote)]).map
        fun c => c.data[j]?) = [some 0]) := by
  refine ⟨by simp [acceptUDPConnections], ?_, ?_, ?_⟩
  · intro c hc
    rcases List.mem_map.mp hc with ⟨pr, _, rfl⟩
    exact readFromBuffer_length 65535 pr.1
  · simp only [acceptUDPConnections, List.map_cons, List.map_nil]
    rw [readFromBuffer_take]
  · intro hj1 hj2
    simp only [acceptUDPConnections, List.map_cons, List.map_nil]
    rw [readFromBuffer_padding 65535 pkt j hj1 hj2]

/-- Witness for the amended C5: for the one-byte packet, position 1 of the
chunk data is a NUL padding byte. -/
theorem claim_C5_witness :
    ((acceptUDPConnections ("rfc3164") parseFailOracle parseFailOracle ("src")
        false [([65], ("r"))]).map fun c => c.data[1]?) = [some 0] :=
  (claim_C5_udp_chunks_amended ("rfc3164") parseFailOracle parseFailOracle
    ("src") false [] [65] ("r") 1).2.2.2 (by decide) (by decide)

/-- Counterexample for C6 as stated: when the rfc3164 parse fails, the
emitted chunk's metadata is nil, not a syslog metadata record with empty
fields. -/
theorem claim_C6_nil_metadata_cex :
    (((acceptUDPConnections ("rfc3164") parseFailOracle parseFailOracle ("src")
        false [([65], ("r"))]).map fun c => c.metadata) = [none]) ∧
    (none : Option SyslogMetadataRec) ≠
      some (⟨"", "", "", "", "", ("r")⟩ : SyslogMetadataRec) :=
  ⟨by decide, by decide⟩

/-- Claim C6 as amended: on a parse failure of the configured format the
chunk is still emitted (one chunk per packet), but its metadata is nil —
no metadata record at all. -/
theorem claim_C6_parse_failure_amended (format : String)
    (p1 p2 : List Nat → ParseOutcome) (name : String) (verify : Bool)
    (pkt : List Nat) (remote : String) :
    ((acceptUDPConnections format p1 p2 name verify [(pkt, remote)]).length = 1) ∧
    (format = "rfc3164" → p1 (readFromBuffer 65535 pkt) = ParseOutcome.fail →
      ((acceptUDPConnections format p1 p2 name verify [(pkt, remote)]).map
        fun c => c.metadata) = [none]) ∧
    (format = "rfc5424" → p2 (readFromBuffer 65535 pkt) = ParseOutcome.fail →
      ((acceptUDPConnections format p1 p2 name verify [(pkt, remote)]).map
        fun c => c.metadata) = [none]) := by
  refine ⟨rfl, ?_, ?_⟩
  · intro hf hp
    subst hf
    simp [acceptUDPConnections, parseSyslogMetadata, hp]
  · intro hf hp
    subst hf
    simp [acceptUDPConnections, parseSyslogMetadata, hp]

/-- Witness for the amended C6: with the always-failing parser the emitted
chunk carries nil metadata. -/
theorem claim_C6_witness :
    ((acceptUDPConnections ("rfc3164") parseFailOracle parseFailOracle ("src")
        false [([65], ("r"))]).map fun c => c.metadata) = [none] :=
  (claim_C6_parse_failure_amended ("rfc3164") parseFailOracle parseFailOracle
    ("src") false [65] ("r")).2.1 rfl rfl

/-- Counterexample for C9 as stated: the TCP read buffer holds 8096 bytes,
not 8192, and the UDP read buffer holds 65535 bytes, not 65536. -/
theorem claim_C9_buffer_cex :
    (tcpReadChunk ("rfc3164") parseFailOracle parseFailOracle ("src") false
        [] ("r")).data.length ≠ 8192 ∧
    ((acceptUDPConnections ("rfc3164") parseFailOracle parseFailOracle ("src")
        false [([], ("r"))]).map fun c => c.data.length) ≠ [65536] := by
  constructor
  · simp [tcpReadChunk, readFromBuffer_length]
  · simp [acceptUDPConnections, readFromBuffer_length]

/-- Claim C9 as amended: every TCP connection read uses a buffer of exactly
8096 bytes and every UDP packet read a buffer of exactly 65535 bytes, and
the whole buffer becomes the chunk data. -/
theorem claim_C9_buffer_amended (format : String)
    (p1 p2 : List Nat → ParseOutcome) (name : String) (verify : Bool)
    (seg : List Nat) (remote : String) (packets : List (List Nat × String)) :
    (tcpReadChunk format p1 p2 name verify seg remote).data.length = 8096 ∧
    ((acceptUDPConnections format p1 p2 name verify packets).map
      fun c => c.data.length) = packets.map fun _ => 65535 := by
  constructor
  · simp [tcpReadChunk, readFromBuffer_length]
  · induction packets with
    | nil => rfl
    | cons p ps ih =>
      simp only [acceptUDPConnections, List.map_cons, readFromBuffer_length] at ih ⊢
      rw [ih]

/-- Claim C8: the UTF-8 sanitizer is idempotent, its output contains no NUL
byte, and its output is well-formed UTF-8. -/
theorem claim_C8_sanitizer (x : List Nat) :
    sanitizeUTF8 (sanitizeUTF8 x) = sanitizeUTF8 x ∧
    (∀ b ∈ sanitizeUTF8 x, b ≠ 0) ∧
    ValidUTF8 (sanitizeUTF8 x) := by
  refine ⟨sanitizeUTF8_idem x, ?_, sanitizeUTF8_valid x⟩
  intro b hb
  have := List.of_mem_filter hb
  simpa using this

/-- Witness for C8: a concrete byte of the sanitized string obtained through
the theorem is non-NUL, and the sanitized string is well-formed. -/
theorem claim_C8_witness :
    (72 : Nat) ≠ 0 ∧ ValidUTF8 (sanitizeUTF8 [72, 0, 255]) :=
  ⟨(claim_C8_sanitizer [72, 0, 255]).2.1 72 (by decide),
   (claim_C8_sanitizer [72, 0, 255]).2.2⟩
